import Mathlib

/-!
# Verification of the session/scheduling engine of Web-Flashcards (src/session.js)

Shallow embedding of the session engine: queue building (`buildQueue`),
day reset (`checkDayReset`), card rating (`rateCard`, `applySpacedRating`),
single-step undo (`rewind`), and session extension (`extendSession`).

Modelling conventions:
* JavaScript object fields that may be absent (`undefined`), `null`, or a
  value are modelled by `JField α`.  The spread `{...card}` copies only
  present keys (`null` and values, not `undefined`), and `Object.assign`
  overwrites only the keys present in the snapshot; both are modelled
  field-by-field below.
* JavaScript numbers are modelled as rationals (`Rat`) for card scheduling
  fields and naturals for the deck counters (which the engine only ever
  stores naturals into).  At every concrete input appearing in the claims
  the IEEE-754 double computation performed by the source agrees exactly
  with the rational computation (in particular `1*2.5*1.3 == 3.25` exactly
  in doubles, and `Math.round(3.25) = 3`).
* Calendar dates (ISO `YYYY-MM-DD` strings, compared lexicographically and
  advanced by `addDays`) are modelled as integer day numbers: lexicographic
  order on ISO dates is date order, and `addDays` is addition of days.
* Object identity (`===` between card objects) is modelled with an explicit
  heap: cards live in `heap : List Card`, and `deck.cards` / the session
  `queue` hold heap addresses.  `===` is address equality.
* `Math.random()` is modelled by a list of natural-number draws `cs`; step
  `i` of the shuffle uses draw `c` as `j = c % (i+1)`, which agrees with
  `Math.floor(Math.random()*(i+1))` on every value that call can produce
  (namely the js call always yields some `j ≤ i`, and `j % (i+1) = j` then).
-/

/-- A JavaScript object field: absent (`undefined`), `null`, or a value. -/
inductive JField (α : Type) where
  | undef : JField α
  | null : JField α
  | val : α → JField α
  deriving DecidableEq, Repr

instance : Inhabited (JField α) := ⟨JField.undef⟩

/-- `sessionStatus` values used by the engine. -/
inductive SessionStatus where
  | TO_REVIEW : SessionStatus
  | FINISHED : SessionStatus
  | SPACED : SessionStatus
  deriving DecidableEq, Repr

/-- `learningMode`: the engine tests `deck.learningMode === 'spaced'` and
treats every other value as simple mode. -/
inductive Mode where
  | simple : Mode
  | spaced : Mode
  deriving DecidableEq, Repr

/-- Ratings accepted by the two modes (`'forgot' | 'remembered'` for simple,
`'again' | 'hard' | 'good' | 'easy'` for spaced). -/
inductive Rating where
  | again : Rating
  | hard : Rating
  | good : Rating
  | easy : Rating
  | remembered : Rating
  | forgot : Rating
  deriving DecidableEq, Repr

/-- A card object (`{word, translation, sessionStatus, dueDate, interval,
easeFactor}`).  `word` and `translation` are always present. -/
structure Card where
  word : String
  translation : String
  sessionStatus : JField SessionStatus
  dueDate : JField Int
  interval : JField Rat
  easeFactor : JField Rat
  deriving DecidableEq, Repr

instance : Inhabited Card :=
  ⟨{ word := "", translation := "", sessionStatus := .undef, dueDate := .undef,
     interval := .undef, easeFactor := .undef }⟩

/-- Deck-level state: `cards` holds heap addresses of the deck's card
objects; the remaining fields are the scheduling configuration/counters. -/
structure Deck where
  cards : List Nat
  learningMode : Mode
  dailyLimit : JField Nat
  sessionExtension : JField Nat
  cardsReviewedToday : JField Nat
  lastSessionDate : JField Int
  deriving DecidableEq, Repr

/-- The pending undo record (`rewindBackup`). -/
structure Backup where
  index : Nat
  cardSnapshot : Card
  deckCardRef : Nat
  cardsReviewedToday : Nat
  deriving DecidableEq, Repr

/-- The module-level session state of `session.js` (`queue`, `currentIndex`,
`rewindBackup`) together with the deck it operates on and the heap of card
objects. -/
structure SessionState where
  heap : List Card
  deck : Deck
  queue : List Nat
  currentIndex : Nat
  rewindBackup : Option Backup
  deriving DecidableEq, Repr

/-- Dereference a heap address (total; well-formed states only use
addresses below `heap.length`). -/
def heapGet (heap : List Card) (a : Nat) : Card :=
  heap.getD a default

/-- JavaScript `x || d` for an optional numeric field: `undefined`, `null`
and `0` are falsy. -/
def jsOrNat (x : JField Nat) (d : Nat) : Nat :=
  match x with
  | .val n => if n = 0 then d else n
  | _ => d

/-- JavaScript `x || d` for an optional rational-valued field. -/
def jsOrRat (x : JField Rat) (d : Rat) : Rat :=
  match x with
  | .val q => if q = 0 then d else q
  | _ => d

/-- JavaScript `Math.round`: nearest integer, ties toward `+∞`. -/
def jsRound (q : Rat) : Int :=
  ⌊q + 1/2⌋

/-- `Math.round(x * 1000) / 1000`: round to 3 decimal places. -/
def round3 (q : Rat) : Rat :=
  (jsRound (q * 1000) : Rat) / 1000

/-- `checkDayReset(deck)`: if the deck was last used on a previous day,
reset the daily counters.  (`today` is the value of `getTodayStr()`.) -/
def checkDayReset (deck : Deck) (today : Int) : Deck :=
  if deck.lastSessionDate = JField.val today then deck
  else { deck with lastSessionDate := JField.val today,
                   cardsReviewedToday := JField.val 0,
                   sessionExtension := JField.val 0 }

/-- Spaced-mode candidate filter: `!c.dueDate || c.dueDate <= today`. -/
def eligibleSpaced (c : Card) (today : Int) : Bool :=
  match c.dueDate with
  | .val d => d ≤ today
  | _ => true

/-- Simple-mode candidate filter: `c.sessionStatus !== 'FINISHED'`. -/
def eligibleSimple (c : Card) : Bool :=
  c.sessionStatus ≠ JField.val SessionStatus.FINISHED

/-- Swap the entries at positions `i` and `j`
(`[candidates[i], candidates[j]] = [candidates[j], candidates[i]]`). -/
def listSwap (l : List α) (i j : Nat) : List α :=
  match l.get? i, l.get? j with
  | some a, some b => (l.set i b).set j a
  | _, _ => l

/-- The shuffle loop `for (let i = candidates.length - 1; i > 0; i--)`,
with the random draw for step `i` taken from the head of `cs`
(`j = Math.floor(Math.random() * (i + 1))` becomes `j = c % (i + 1)`,
which agrees on every value the js expression can produce). -/
def fyLoop (l : List α) : Nat → List Nat → List α
  | 0, _ => l
  | _ + 1, [] => l
  | i + 1, c :: cs => fyLoop (listSwap l (i + 1) (c % (i + 2))) i cs

/-- The in-place Fisher–Yates shuffle performed by `buildQueue`. -/
def jsShuffle (l : List α) (cs : List Nat) : List α :=
  fyLoop l (l.length - 1) cs

/-- `buildQueue(deck)`: day reset, daily-limit computation, candidate
selection by mode, shuffle, and truncation to the remaining allowance.
`cs` supplies the random draws. -/
def buildQueue (s : SessionState) (today : Int) (cs : List Nat) : SessionState :=
  let deck := checkDayReset s.deck today
  let effectiveLimit := jsOrNat deck.dailyLimit 5 + jsOrNat deck.sessionExtension 0
  let alreadyDone := jsOrNat deck.cardsReviewedToday 0
  -- `Math.max(0, effectiveLimit - alreadyDone)` is truncated subtraction on ℕ
  let remaining := effectiveLimit - alreadyDone
  let candidates :=
    if deck.learningMode = Mode.spaced then
      deck.cards.filter (fun a => eligibleSpaced (heapGet s.heap a) today)
    else
      deck.cards.filter (fun a => eligibleSimple (heapGet s.heap a))
  let shuffled := jsShuffle candidates cs
  { s with deck := deck, queue := shuffled.take remaining,
           currentIndex := 0, rewindBackup := none }

/-- `isComplete()`: `currentIndex >= queue.length`. -/
def isComplete (s : SessionState) : Bool :=
  s.queue.length ≤ s.currentIndex

/-- `canRewind()`: `rewindBackup !== null`. -/
def canRewind (s : SessionState) : Bool :=
  s.rewindBackup.isSome

/-- `applySpacedRating(card, rating, today)`: the SM-2 update. -/
def applySpacedRating (card : Card) (rating : Rating) (today : Int) : Card :=
  let interval : Rat := jsOrRat card.interval 1
  let ease : Rat := jsOrRat card.easeFactor 2.5
  if rating = Rating.again then
    { card with dueDate := JField.val today,
                interval := JField.val 1,
                easeFactor := JField.val (round3 (max 1.3 (ease - 0.2))),
                sessionStatus := JField.val SessionStatus.SPACED }
  else if rating = Rating.hard then
    let i : Int := max 1 (jsRound (interval * 1.2))
    { card with dueDate := JField.val (today + i),
                interval := JField.val (i : Rat),
                easeFactor := JField.val (round3 (max 1.3 (ease - 0.15))),
                sessionStatus := JField.val SessionStatus.SPACED }
  else if rating = Rating.good then
    let i : Int := max 1 (jsRound (interval * ease))
    { card with dueDate := JField.val (today + i),
                interval := JField.val (i : Rat),
                easeFactor := JField.val (round3 ease),
                sessionStatus := JField.val SessionStatus.SPACED }
  else if rating = Rating.easy then
    let i : Int := max 1 (jsRound (interval * ease * 1.3))
    { card with dueDate := JField.val (today + i),
                interval := JField.val (i : Rat),
                easeFactor := JField.val (round3 (ease + 0.15)),
                sessionStatus := JField.val SessionStatus.SPACED }
  else
    -- unknown rating: the if-chain falls through; the trailing assignments
    -- still store the (defaulted) interval and rounded ease and set SPACED
    { card with interval := JField.val interval,
                easeFactor := JField.val (round3 ease),
                sessionStatus := JField.val SessionStatus.SPACED }

/-- The find predicate of `rateCard`:
`c === queueCard || (c.word === queueCard.word && c.translation === queueCard.translation)`. -/
def cardMatches (heap : List Card) (qAddr : Nat) (a : Nat) : Bool :=
  a == qAddr ||
    ((heapGet heap a).word == (heapGet heap qAddr).word &&
     (heapGet heap a).translation == (heapGet heap qAddr).translation)

/-- `rateCard(deck, rating)`. -/
def rateCard (s : SessionState) (rating : Rating) (today : Int) : SessionState :=
  match s.queue.get? s.currentIndex with
  | none => s
  | some qAddr =>
    match s.deck.cards.find? (cardMatches s.heap qAddr) with
    | none => { s with currentIndex := s.currentIndex + 1 }
    | some dAddr =>
      let deckCard := heapGet s.heap dAddr
      let backup : Backup :=
        { index := s.currentIndex,
          cardSnapshot := deckCard,
          deckCardRef := dAddr,
          cardsReviewedToday := jsOrNat s.deck.cardsReviewedToday 0 }
      let newCard :=
        if s.deck.learningMode = Mode.spaced then
          applySpacedRating deckCard rating today
        else if rating = Rating.remembered then
          { deckCard with sessionStatus := JField.val SessionStatus.FINISHED }
        else
          deckCard
      { s with heap := s.heap.set dAddr newCard,
               deck := { s.deck with
                 cardsReviewedToday := JField.val (jsOrNat s.deck.cardsReviewedToday 0 + 1) },
               currentIndex := s.currentIndex + 1,
               rewindBackup := some backup }

/-- `Object.assign` on one field: keys present in the snapshot (values and
`null`, not `undefined`) overwrite the target. -/
def fieldAssign (target snap : JField α) : JField α :=
  match snap with
  | .undef => target
  | x => x

/-- `Object.assign(deckCardRef, cardSnapshot)` where the snapshot was the
spread `{...deckCard}` (which copies only present keys). -/
def objectAssign (target snap : Card) : Card :=
  { word := snap.word,
    translation := snap.translation,
    sessionStatus := fieldAssign target.sessionStatus snap.sessionStatus,
    dueDate := fieldAssign target.dueDate snap.dueDate,
    interval := fieldAssign target.interval snap.interval,
    easeFactor := fieldAssign target.easeFactor snap.easeFactor }

/-- `rewind(deck)`: returns `(success, new state)`. -/
def rewind (s : SessionState) : Bool × SessionState :=
  match s.rewindBackup with
  | none => (false, s)
  | some b =>
    let restored := objectAssign (heapGet s.heap b.deckCardRef) b.cardSnapshot
    (true,
     { s with heap := s.heap.set b.deckCardRef restored,
              queue := s.queue.set b.index b.deckCardRef,
              currentIndex := b.index,
              deck := { s.deck with cardsReviewedToday := JField.val b.cardsReviewedToday },
              rewindBackup := none })

/-- `extendSession(deck, amount)`. -/
def extendSession (s : SessionState) (amount : Nat) (today : Int) (cs : List Nat) :
    SessionState :=
  let s' := { s with deck := { s.deck with
    sessionExtension := JField.val (jsOrNat s.deck.sessionExtension 0 + max 1 amount) } }
  buildQueue s' today cs

/-! ## Spec-side definitions (for the refinement claim about the SM-2 table)

These follow the wording of the specification's SM-2 table, to be compared
with `applySpacedRating` (which is translated from the source). -/

/-- Rounding to the nearest integer with ties away from zero, as the spec
words the interval rounding rule. -/
def specRound (q : Rat) : Int :=
  if 0 ≤ q then ⌊q + 1/2⌋ else -⌊-q + 1/2⌋

/-- The "New interval (days)" column of the spec's SM-2 table (spec-side;
only the four spaced ratings are meaningful). -/
def specSM2Interval (interval ease : Rat) : Rating → Int
  | .again => 1
  | .hard => max 1 (specRound (interval * 1.2))
  | .good => max 1 (specRound (interval * ease))
  | .easy => max 1 (specRound (interval * ease * 1.3))
  | _ => 1

/-- The "New ease" column of the spec's SM-2 table (spec-side). -/
def specSM2Ease (ease : Rat) : Rating → Rat
  | .again => max 1.3 (ease - 0.2)
  | .hard => max 1.3 (ease - 0.15)
  | .good => ease
  | .easy => ease + 0.15
  | _ => ease

/-- The "Due date" column of the spec's SM-2 table (spec-side): `today` for
`again`, `today + new interval` otherwise. -/
def specSM2Due (interval ease : Rat) (today : Int) : Rating → Int
  | .again => today
  | r => today + specSM2Interval interval ease r

/-- `max 1 ∘ specRound` and `max 1 ∘ Math.round` agree: the two rounding
rules differ only on negative arguments, where the `max 1` clamp erases the
difference. -/
theorem max_one_specRound_eq (q : Rat) : max 1 (specRound q) = max 1 (jsRound q) := by
  unfold specRound jsRound
  split
  · rfl
  · rename_i h
    push_neg at h
    have h1 : ⌊q + 1/2⌋ < 1 := by
      rw [Int.floor_lt]
      push_cast
      linarith
    have h2 : (0 : Int) ≤ ⌊-q + 1/2⌋ := by
      rw [Int.le_floor]
      push_cast
      linarith
    omega

/-- C1: for every card in spaced mode and each of the four spaced ratings,
`applySpacedRating` reads `interval` (default 1) and `easeFactor` (default
2.5) and updates the card exactly per the spec's SM-2 table; in every case
`sessionStatus` becomes `SPACED`, the stored ease is the table's ease
rounded to 3 decimal places, and the stored interval is a positive
integer. -/
theorem applySpacedRating_matches_spec_table (c : Card) (r : Rating) (t : Int)
    (hr : r = Rating.again ∨ r = Rating.hard ∨ r = Rating.good ∨ r = Rating.easy) :
    applySpacedRating c r t =
      { c with
        dueDate := JField.val (specSM2Due (jsOrRat c.interval 1) (jsOrRat c.easeFactor 2.5) t r),
        interval := JField.val ((specSM2Interval (jsOrRat c.interval 1) (jsOrRat c.easeFactor 2.5) r : Int) : Rat),
        easeFactor := JField.val (round3 (specSM2Ease (jsOrRat c.easeFactor 2.5) r)),
        sessionStatus := JField.val SessionStatus.SPACED }
    ∧ 1 ≤ specSM2Interval (jsOrRat c.interval 1) (jsOrRat c.easeFactor 2.5) r := by
  rcases hr with rfl | rfl | rfl | rfl <;>
    constructor <;>
    simp [applySpacedRating, specSM2Due, specSM2Interval, specSM2Ease,
          max_one_specRound_eq, le_max_left]

/-- A freshly-created card as the application builds them (interval 1,
ease factor 2.5, never scheduled). -/
def baseCard : Card :=
  { word := "Hola", translation := "Hello",
    sessionStatus := JField.val SessionStatus.TO_REVIEW,
    dueDate := JField.null, interval := JField.val 1, easeFactor := JField.val 2.5 }

/-- Witness for the SM-2 table theorem at a concrete card and rating. -/
theorem applySpacedRating_matches_spec_table_witness :
    (Rating.good = Rating.again ∨ Rating.good = Rating.hard ∨
      Rating.good = Rating.good ∨ Rating.good = Rating.easy)
    ∧ (applySpacedRating baseCard Rating.good 0 =
        { baseCard with
          dueDate := JField.val
            (specSM2Due (jsOrRat baseCard.interval 1) (jsOrRat baseCard.easeFactor 2.5) 0 Rating.good),
          interval := JField.val
            ((specSM2Interval (jsOrRat baseCard.interval 1) (jsOrRat baseCard.easeFactor 2.5) Rating.good : Int) : Rat),
          easeFactor := JField.val (round3 (specSM2Ease (jsOrRat baseCard.easeFactor 2.5) Rating.good)),
          sessionStatus := JField.val SessionStatus.SPACED }
      ∧ 1 ≤ specSM2Interval (jsOrRat baseCard.interval 1) (jsOrRat baseCard.easeFactor 2.5) Rating.good) :=
  ⟨Or.inr (Or.inr (Or.inl rfl)),
   applySpacedRating_matches_spec_table baseCard Rating.good 0 (Or.inr (Or.inr (Or.inl rfl)))⟩

/-- C6 counterexample: rating `easy` on a card with interval 1 and ease 2.5
stores interval 3, not 4 — `1 * 2.5 * 1.3` is exactly `3.25` (also in
IEEE-754 doubles) and `Math.round(3.25) = 3`. -/
theorem sm2_easy_from_base_interval_ne_four :
    (applySpacedRating baseCard Rating.easy 0).interval = JField.val 3 ∧
      (applySpacedRating baseCard Rating.easy 0).interval ≠ JField.val 4 := by
  constructor <;>
    · simp [applySpacedRating, baseCard, jsOrRat, jsRound, round3]
      norm_num [Int.floor_eq_iff]

/-- C6 (amended): from interval 1 and ease 2.5, `good` yields interval 3,
due date today+3, ease unchanged (2.5); `easy` yields interval 3 (not 4),
ease 2.65, due date today+3; `again` resets interval to 1, ease 2.3, due
date today. -/
theorem sm2_concrete_start_values (t : Int) :
    ((applySpacedRating baseCard Rating.good t).interval = JField.val 3
      ∧ (applySpacedRating baseCard Rating.good t).dueDate = JField.val (t + 3)
      ∧ (applySpacedRating baseCard Rating.good t).easeFactor = JField.val 2.5)
    ∧ ((applySpacedRating baseCard Rating.easy t).interval = JField.val 3
      ∧ (applySpacedRating baseCard Rating.easy t).dueDate = JField.val (t + 3)
      ∧ (applySpacedRating baseCard Rating.easy t).easeFactor = JField.val 2.65)
    ∧ ((applySpacedRating baseCard Rating.again t).interval = JField.val 1
      ∧ (applySpacedRating baseCard Rating.again t).dueDate = JField.val t
      ∧ (applySpacedRating baseCard Rating.again t).easeFactor = JField.val 2.3) := by
  refine ⟨⟨?_, ?_, ?_⟩, ⟨?_, ?_, ?_⟩, ⟨?_, ?_, ?_⟩⟩
  all_goals simp [applySpacedRating, baseCard, jsOrRat, jsRound, round3]
  all_goals norm_num [Int.floor_eq_iff]

/-- C7: `checkDayReset` resets `lastSessionDate`, `cardsReviewedToday` and
`sessionExtension` when the stored date differs from today, is a no-op when
it already equals today (hence idempotent within the same day), and is
performed at the start of every `buildQueue` (the deck `buildQueue` leaves
behind is exactly `checkDayReset` of the incoming deck). -/
theorem checkDayReset_behavior (d : Deck) (t : Int) :
    (d.lastSessionDate = JField.val t → checkDayReset d t = d)
    ∧ (d.lastSessionDate ≠ JField.val t →
        checkDayReset d t =
          { d with lastSessionDate := JField.val t,
                   cardsReviewedToday := JField.val 0,
                   sessionExtension := JField.val 0 })
    ∧ checkDayReset (checkDayReset d t) t = checkDayReset d t
    ∧ ∀ (s : SessionState) (cs : List Nat), s.deck = d →
        (buildQueue s t cs).deck = checkDayReset d t := by
  refine ⟨?_, ?_, ?_, ?_⟩
  · intro h; simp [checkDayReset, h]
  · intro h; simp [checkDayReset, h]
  · by_cases h : d.lastSessionDate = JField.val t <;> simp [checkDayReset, h]
  · intro s cs h; subst h; rfl

/-- A small concrete deck used by witnesses: simple mode, daily limit 2,
last used on day 9 with stale counters. -/
def sampleDeck : Deck :=
  { cards := [0, 1, 2], learningMode := Mode.simple, dailyLimit := JField.val 2,
    sessionExtension := JField.val 3, cardsReviewedToday := JField.val 5,
    lastSessionDate := JField.val 9 }

/-- Witness for `checkDayReset_behavior` at a concrete deck and day. -/
theorem checkDayReset_behavior_witness :
    (sampleDeck.lastSessionDate = JField.val 10 → checkDayReset sampleDeck 10 = sampleDeck)
    ∧ (sampleDeck.lastSessionDate ≠ JField.val 10 →
        checkDayReset sampleDeck 10 =
          { sampleDeck with lastSessionDate := JField.val 10,
                            cardsReviewedToday := JField.val 0,
                            sessionExtension := JField.val 0 })
    ∧ checkDayReset (checkDayReset sampleDeck 10) 10 = checkDayReset sampleDeck 10
    ∧ ∀ (s : SessionState) (cs : List Nat), s.deck = sampleDeck →
        (buildQueue s 10 cs).deck = checkDayReset sampleDeck 10 :=
  checkDayReset_behavior sampleDeck 10

/-- C8: when the current queue entry matches no deck card (neither by
reference — address equality — nor by word+translation), `rateCard`
advances the cursor by exactly one and changes nothing else (heap, deck
counters, queue, and undo record untouched); the operation is total, so no
error is raised. -/
theorem rateCard_stale_entry_advances_only (s : SessionState) (r : Rating) (t : Int)
    (qAddr : Nat)
    (hq : s.queue.get? s.currentIndex = some qAddr)
    (hfind : s.deck.cards.find? (cardMatches s.heap qAddr) = none) :
    rateCard s r t = { s with currentIndex := s.currentIndex + 1 } := by
  simp only [rateCard, hq, hfind]

/-- A state whose queue points at a card object that is no longer in the
deck (the deck's card list is empty). -/
def staleState : SessionState :=
  { heap := [baseCard],
    deck := { cards := [], learningMode := Mode.simple, dailyLimit := JField.val 5,
              sessionExtension := JField.val 0, cardsReviewedToday := JField.val 0,
              lastSessionDate := JField.null },
    queue := [0], currentIndex := 0, rewindBackup := none }

/-- Witness for `rateCard_stale_entry_advances_only` on `staleState`. -/
theorem rateCard_stale_entry_advances_only_witness :
    rateCard staleState Rating.remembered 0 =
      { staleState with currentIndex := staleState.currentIndex + 1 } :=
  rateCard_stale_entry_advances_only staleState Rating.remembered 0 0 rfl rfl

/-! ## Queue-building lemmas -/

theorem length_listSwap (l : List α) (i j : Nat) :
    (listSwap l i j).length = l.length := by
  unfold listSwap
  split <;> simp

theorem length_fyLoop (i : Nat) (cs : List Nat) (l : List α) :
    (fyLoop l i cs).length = l.length := by
  induction i generalizing l cs with
  | zero => rfl
  | succ i ih =>
    cases cs with
    | nil => rfl
    | cons c cs => rw [fyLoop, ih, length_listSwap]

theorem length_jsShuffle (l : List α) (cs : List Nat) :
    (jsShuffle l cs).length = l.length :=
  length_fyLoop _ _ _

theorem mem_of_mem_listSwap {l : List α} {i j : Nat} {x : α}
    (h : x ∈ listSwap l i j) : x ∈ l := by
  unfold listSwap at h
  split at h
  · rename_i a b ha hb
    rcases List.mem_or_eq_of_mem_set h with h' | rfl
    · rcases List.mem_or_eq_of_mem_set h' with h'' | rfl
      · exact h''
      · exact List.get?_mem hb
    · exact List.get?_mem ha
  · exact h

theorem mem_of_mem_fyLoop {i : Nat} {cs : List Nat} {l : List α} {x : α}
    (h : x ∈ fyLoop l i cs) : x ∈ l := by
  induction i generalizing l cs with
  | zero => exact h
  | succ i ih =>
    cases cs with
    | nil => exact h
    | cons c cs => exact mem_of_mem_listSwap (ih (h := h))

theorem mem_of_mem_jsShuffle {l : List α} {cs : List Nat} {x : α}
    (h : x ∈ jsShuffle l cs) : x ∈ l :=
  mem_of_mem_fyLoop h

theorem checkDayReset_dailyLimit (d : Deck) (t : Int) :
    (checkDayReset d t).dailyLimit = d.dailyLimit := by
  unfold checkDayReset; split <;> rfl

theorem checkDayReset_learningMode (d : Deck) (t : Int) :
    (checkDayReset d t).learningMode = d.learningMode := by
  unfold checkDayReset; split <;> rfl

theorem checkDayReset_cards (d : Deck) (t : Int) :
    (checkDayReset d t).cards = d.cards := by
  unfold checkDayReset; split <;> rfl

theorem jsShuffle_nil (cs : List Nat) : jsShuffle ([] : List α) cs = [] := rfl

/-- The queue produced by `buildQueue`, written out: eligible cards,
shuffled, truncated to the remaining daily allowance (computed on the
deck after the day reset). -/
theorem buildQueue_queue_eq (s : SessionState) (t : Int) (cs : List Nat) :
    (buildQueue s t cs).queue =
      (jsShuffle
        (if (checkDayReset s.deck t).learningMode = Mode.spaced then
          (checkDayReset s.deck t).cards.filter (fun a => eligibleSpaced (heapGet s.heap a) t)
         else
          (checkDayReset s.deck t).cards.filter (fun a => eligibleSimple (heapGet s.heap a)))
        cs).take
        ((jsOrNat (checkDayReset s.deck t).dailyLimit 5
          + jsOrNat (checkDayReset s.deck t).sessionExtension 0)
         - jsOrNat (checkDayReset s.deck t).cardsReviewedToday 0) := rfl

/-- C3: with a positive `dailyLimit`, the queue produced by `buildQueue`
has length at most `max(0, dailyLimit + sessionExtension −
cardsReviewedToday)` where the counters are the ones after the day reset;
a zero remainder or an empty candidate set yields an empty queue and an
immediately complete session (and `buildQueue` is total, so no error). -/
theorem buildQueue_length_bound (s : SessionState) (t : Int) (cs : List Nat) (L : Nat)
    (hL : s.deck.dailyLimit = JField.val L) (hL0 : 0 < L) :
    (((buildQueue s t cs).queue.length : Int) ≤
      max 0 ((L : Int) + (jsOrNat (checkDayReset s.deck t).sessionExtension 0 : Int)
             - (jsOrNat (checkDayReset s.deck t).cardsReviewedToday 0 : Int)))
    ∧ ((L + jsOrNat (checkDayReset s.deck t).sessionExtension 0)
         - jsOrNat (checkDayReset s.deck t).cardsReviewedToday 0 = 0 →
       (buildQueue s t cs).queue = [] ∧ isComplete (buildQueue s t cs) = true)
    ∧ ((if (checkDayReset s.deck t).learningMode = Mode.spaced then
          (checkDayReset s.deck t).cards.filter (fun a => eligibleSpaced (heapGet s.heap a) t)
        else
          (checkDayReset s.deck t).cards.filter (fun a => eligibleSimple (heapGet s.heap a))) = [] →
       (buildQueue s t cs).queue = [] ∧ isComplete (buildQueue s t cs) = true) := by
  have hlim : jsOrNat (checkDayReset s.deck t).dailyLimit 5 = L := by
    rw [checkDayReset_dailyLimit, hL]
    simp only [jsOrNat]
    split <;> omega
  refine ⟨?_, ?_, ?_⟩
  · rw [buildQueue_queue_eq, hlim, List.length_take, length_jsShuffle]
    set E := jsOrNat (checkDayReset s.deck t).sessionExtension 0
    set D := jsOrNat (checkDayReset s.deck t).cardsReviewedToday 0
    have h1 := Nat.min_le_left ((L + E) - D)
      ((if (checkDayReset s.deck t).learningMode = Mode.spaced then
          (checkDayReset s.deck t).cards.filter (fun a => eligibleSpaced (heapGet s.heap a) t)
        else
          (checkDayReset s.deck t).cards.filter (fun a => eligibleSimple (heapGet s.heap a))).length)
    omega
  · intro h
    have hq : (buildQueue s t cs).queue = [] := by
      rw [buildQueue_queue_eq, hlim, h, List.take_zero]
    refine ⟨hq, ?_⟩
    simp [isComplete, hq]
  · intro h
    have hq : (buildQueue s t cs).queue = [] := by
      rw [buildQueue_queue_eq, h, jsShuffle_nil, List.take_nil]
    refine ⟨hq, ?_⟩
    simp [isComplete, hq]

/-- C4: every card `buildQueue` places in the queue satisfies the mode's
eligibility rule — in spaced mode its due date is absent/null or at most
today, in simple mode its status is not `FINISHED`. -/
theorem buildQueue_members_eligible (s : SessionState) (t : Int) (cs : List Nat) (a : Nat)
    (ha : a ∈ (buildQueue s t cs).queue) :
    (s.deck.learningMode = Mode.spaced → eligibleSpaced (heapGet s.heap a) t = true)
    ∧ (s.deck.learningMode = Mode.simple → eligibleSimple (heapGet s.heap a) = true) := by
  rw [buildQueue_queue_eq] at ha
  have ha' := mem_of_mem_jsShuffle (List.mem_of_mem_take ha)
  rw [checkDayReset_learningMode] at ha'
  constructor
  · intro hm
    rw [hm] at ha'
    simp at ha'
    exact ha'.2
  · intro hm
    rw [hm] at ha'
    simp at ha'
    exact ha'.2

/-- C10: a falsy `dailyLimit` (absent, null, or 0) is silently replaced by
the default 5, so the queue holds `min(5 + sessionExtension −
cardsReviewedToday, #eligible)` cards. -/
theorem buildQueue_defaults_missing_dailyLimit (s : SessionState) (t : Int) (cs : List Nat)
    (h : s.deck.dailyLimit = JField.undef ∨ s.deck.dailyLimit = JField.null ∨
         s.deck.dailyLimit = JField.val 0) :
    jsOrNat s.deck.dailyLimit 5 = 5
    ∧ (buildQueue s t cs).queue.length =
        min ((5 + jsOrNat (checkDayReset s.deck t).sessionExtension 0)
             - jsOrNat (checkDayReset s.deck t).cardsReviewedToday 0)
            (if (checkDayReset s.deck t).learningMode = Mode.spaced then
              (checkDayReset s.deck t).cards.filter (fun a => eligibleSpaced (heapGet s.heap a) t)
             else
              (checkDayReset s.deck t).cards.filter (fun a => eligibleSimple (heapGet s.heap a))).length := by
  have h5 : jsOrNat s.deck.dailyLimit 5 = 5 := by
    rcases h with h | h | h <;> simp [jsOrNat, h]
  refine ⟨h5, ?_⟩
  rw [buildQueue_queue_eq, List.length_take, length_jsShuffle, checkDayReset_dailyLimit, h5]

/-- Concrete card objects for the witness states: two reviewable cards and
one finished card. -/
def sampleHeap : List Card :=
  [baseCard, { baseCard with word := "Adios" },
   { baseCard with word := "Gato", sessionStatus := JField.val SessionStatus.FINISHED }]

/-- A fresh session over `sampleDeck`. -/
def sampleState : SessionState :=
  { heap := sampleHeap, deck := sampleDeck, queue := [], currentIndex := 0,
    rewindBackup := none }

/-- Witness for `buildQueue_length_bound` on a concrete deck and day. -/
theorem buildQueue_length_bound_witness :
    (((buildQueue sampleState 10 [0]).queue.length : Int) ≤
      max 0 ((2 : Int) + (jsOrNat (checkDayReset sampleState.deck 10).sessionExtension 0 : Int)
             - (jsOrNat (checkDayReset sampleState.deck 10).cardsReviewedToday 0 : Int)))
    ∧ ((2 + jsOrNat (checkDayReset sampleState.deck 10).sessionExtension 0)
         - jsOrNat (checkDayReset sampleState.deck 10).cardsReviewedToday 0 = 0 →
       (buildQueue sampleState 10 [0]).queue = [] ∧ isComplete (buildQueue sampleState 10 [0]) = true)
    ∧ ((if (checkDayReset sampleState.deck 10).learningMode = Mode.spaced then
          (checkDayReset sampleState.deck 10).cards.filter
            (fun a => eligibleSpaced (heapGet sampleState.heap a) 10)
        else
          (checkDayReset sampleState.deck 10).cards.filter
            (fun a => eligibleSimple (heapGet sampleState.heap a))) = [] →
       (buildQueue sampleState 10 [0]).queue = [] ∧ isComplete (buildQueue sampleState 10 [0]) = true) :=
  buildQueue_length_bound sampleState 10 [0] 2 rfl (by decide)

/-- Witness for `buildQueue_members_eligible`: card 1 lands in the queue
built on day 10 and is indeed eligible. -/
theorem buildQueue_members_eligible_witness :
    (sampleState.deck.learningMode = Mode.spaced →
      eligibleSpaced (heapGet sampleState.heap 1) 10 = true)
    ∧ (sampleState.deck.learningMode = Mode.simple →
      eligibleSimple (heapGet sampleState.heap 1) = true) :=
  buildQueue_members_eligible sampleState 10 [0] 1 (by decide)

/-- `sampleState` with the deck's `dailyLimit` missing. -/
def limitlessState : SessionState :=
  { sampleState with deck := { sampleState.deck with dailyLimit := JField.undef } }

/-- Witness for `buildQueue_defaults_missing_dailyLimit`. -/
theorem buildQueue_defaults_missing_dailyLimit_witness :
    jsOrNat limitlessState.deck.dailyLimit 5 = 5
    ∧ (buildQueue limitlessState 10 [0]).queue.length =
        min ((5 + jsOrNat (checkDayReset limitlessState.deck 10).sessionExtension 0)
             - jsOrNat (checkDayReset limitlessState.deck 10).cardsReviewedToday 0)
            (if (checkDayReset limitlessState.deck 10).learningMode = Mode.spaced then
              (checkDayReset limitlessState.deck 10).cards.filter
                (fun a => eligibleSpaced (heapGet limitlessState.heap a) 10)
             else
              (checkDayReset limitlessState.deck 10).cards.filter
                (fun a => eligibleSimple (heapGet limitlessState.heap a))).length :=
  buildQueue_defaults_missing_dailyLimit limitlessState 10 [0] (Or.inl rfl)

/-! ## Rating + rewind (single-step undo) -/

theorem jsOrNat_val_zero (n : Nat) : jsOrNat (JField.val n) 0 = n := by
  simp only [jsOrNat]
  split <;> omega

theorem fieldAssign_of_ne_undef {α : Type} (x : JField α) {snap : JField α}
    (h : snap ≠ JField.undef) : fieldAssign x snap = snap := by
  cases snap with
  | undef => exact absurd rfl h
  | null => rfl
  | val a => rfl

/-- `Object.assign(target, snapshot)` rebuilds the snapshot exactly when
every optional key was present in the snapshotted card. -/
theorem objectAssign_of_present (x snap : Card)
    (h1 : snap.sessionStatus ≠ JField.undef) (h2 : snap.dueDate ≠ JField.undef)
    (h3 : snap.interval ≠ JField.undef) (h4 : snap.easeFactor ≠ JField.undef) :
    objectAssign x snap = snap := by
  unfold objectAssign
  rw [fieldAssign_of_ne_undef _ h1, fieldAssign_of_ne_undef _ h2,
      fieldAssign_of_ne_undef _ h3, fieldAssign_of_ne_undef _ h4]

theorem set_heapGet (l : List Card) (n : Nat) (h : n < l.length) :
    l.set n (heapGet l n) = l := by
  have hc : l.get? n = some (l.get ⟨n, h⟩) := List.get?_eq_get h
  have hg : heapGet l n = l.get ⟨n, h⟩ := by
    simp [heapGet, List.getD_eq_getElem?_getD, ← List.get?_eq_getElem?, hc]
  apply List.ext_get?
  intro m
  rw [List.get?_set]
  split
  · rename_i hmn
    subst hmn
    rw [hc, hg]
    rfl
  · rfl

/-- C2 (amended): when the matched deck card has all of its optional fields
present (as every card created or imported by the application does) and the
deck's `cardsReviewedToday` field is present, rating the current card and
then immediately rewinding restores the heap (hence the card's full field
set), the cursor, and `cardsReviewedToday` exactly; `rewind` returns true
and `canRewind()` is false afterwards. -/
theorem rate_then_rewind_restores (s : SessionState) (r : Rating) (t : Int)
    (qAddr dAddr : Nat)
    (hq : s.queue.get? s.currentIndex = some qAddr)
    (hfind : s.deck.cards.find? (cardMatches s.heap qAddr) = some dAddr)
    (hlt : dAddr < s.heap.length)
    (h1 : (heapGet s.heap dAddr).sessionStatus ≠ JField.undef)
    (h2 : (heapGet s.heap dAddr).dueDate ≠ JField.undef)
    (h3 : (heapGet s.heap dAddr).interval ≠ JField.undef)
    (h4 : (heapGet s.heap dAddr).easeFactor ≠ JField.undef)
    (n : Nat) (hcnt : s.deck.cardsReviewedToday = JField.val n) :
    (rewind (rateCard s r t)).1 = true
    ∧ (rewind (rateCard s r t)).2.heap = s.heap
    ∧ (rewind (rateCard s r t)).2.currentIndex = s.currentIndex
    ∧ (rewind (rateCard s r t)).2.deck.cardsReviewedToday = s.deck.cardsReviewedToday
    ∧ canRewind (rewind (rateCard s r t)).2 = false := by
  have hrate : rateCard s r t =
      { s with
        heap := s.heap.set dAddr
          (if s.deck.learningMode = Mode.spaced then
            applySpacedRating (heapGet s.heap dAddr) r t
          else if r = Rating.remembered then
            { heapGet s.heap dAddr with sessionStatus := JField.val SessionStatus.FINISHED }
          else heapGet s.heap dAddr),
        deck := { s.deck with
          cardsReviewedToday := JField.val (jsOrNat s.deck.cardsReviewedToday 0 + 1) },
        currentIndex := s.currentIndex + 1,
        rewindBackup := some
          { index := s.currentIndex,
            cardSnapshot := heapGet s.heap dAddr,
            deckCardRef := dAddr,
            cardsReviewedToday := jsOrNat s.deck.cardsReviewedToday 0 } } := by
    simp only [rateCard, hq, hfind]
  rw [hrate]
  unfold rewind
  simp only
  have hoa : objectAssign
      (heapGet (s.heap.set dAddr
        (if s.deck.learningMode = Mode.spaced then
            applySpacedRating (heapGet s.heap dAddr) r t
          else if r = Rating.remembered then
            { heapGet s.heap dAddr with sessionStatus := JField.val SessionStatus.FINISHED }
          else heapGet s.heap dAddr)) dAddr)
      (heapGet s.heap dAddr) = heapGet s.heap dAddr :=
    objectAssign_of_present _ _ h1 h2 h3 h4
  rw [hoa, List.set_set, set_heapGet s.heap dAddr hlt]
  simp [hcnt, jsOrNat_val_zero, canRewind]

/-- A one-card spaced-mode session whose card has every field present. -/
def spacedState : SessionState :=
  { heap := [baseCard],
    deck := { cards := [0], learningMode := Mode.spaced, dailyLimit := JField.val 5,
              sessionExtension := JField.val 0, cardsReviewedToday := JField.val 0,
              lastSessionDate := JField.val 10 },
    queue := [0], currentIndex := 0, rewindBackup := none }

/-- Witness for `rate_then_rewind_restores` on `spacedState`. -/
theorem rate_then_rewind_restores_witness :
    (rewind (rateCard spacedState Rating.good 10)).1 = true
    ∧ (rewind (rateCard spacedState Rating.good 10)).2.heap = spacedState.heap
    ∧ (rewind (rateCard spacedState Rating.good 10)).2.currentIndex = spacedState.currentIndex
    ∧ (rewind (rateCard spacedState Rating.good 10)).2.deck.cardsReviewedToday
        = spacedState.deck.cardsReviewedToday
    ∧ canRewind (rewind (rateCard spacedState Rating.good 10)).2 = false :=
  rate_then_rewind_restores spacedState Rating.good 10 0 0 rfl rfl (by decide)
    (by decide) (by decide) (by decide) (by decide) 0 rfl

/-- A card stored without `dueDate`/`interval`/`easeFactor` keys, as older
records loaded from storage may be (the engine defaults them on use). -/
def partialCard : Card :=
  { word := "sol", translation := "sun",
    sessionStatus := JField.val SessionStatus.TO_REVIEW,
    dueDate := JField.undef, interval := JField.undef, easeFactor := JField.undef }

/-- `spacedState` over the field-poor card. -/
def partialState : SessionState := { spacedState with heap := [partialCard] }

/-- C2 counterexample: rating a card whose `dueDate` key was absent and
immediately rewinding does NOT restore the card's full field set — the
rewind succeeds, but the card keeps the due date the rating wrote
(`Object.assign` with the snapshot cannot delete keys the snapshot lacks). -/
theorem rate_then_rewind_not_exact_cex :
    (rewind (rateCard partialState Rating.good 10)).1 = true
    ∧ (heapGet (rewind (rateCard partialState Rating.good 10)).2.heap 0).dueDate
      ≠ (heapGet partialState.heap 0).dueDate := by
  constructor <;>
    simp [rateCard, rewind, partialState, spacedState, partialCard, cardMatches,
          heapGet, objectAssign, fieldAssign, applySpacedRating, jsOrRat, jsOrNat,
          jsRound, List.find?]

/-! ## Reachability invariant: the daily counter never exceeds the allowance -/

inductive Op where
  | build (today : Int) (cs : List Nat) : Op
  | rate (r : Rating) (today : Int) : Op
  | undo : Op
  | extend (amount : Nat) (today : Int) (cs : List Nat) : Op

def applyOp (s : SessionState) : Op → SessionState
  | .build t cs => buildQueue s t cs
  | .rate r t => rateCard s r t
  | .undo => (rewind s).2
  | .extend a t cs => extendSession s a t cs

def runOps (s : SessionState) (ops : List Op) : SessionState :=
  ops.foldl applyOp s

def Allowance (s : SessionState) : Nat :=
  jsOrNat s.deck.dailyLimit 5 + jsOrNat s.deck.sessionExtension 0

def SessInv (s : SessionState) : Prop :=
  jsOrNat s.deck.cardsReviewedToday 0 + (s.queue.length - s.currentIndex) ≤ Allowance s
  ∧ ∀ b, s.rewindBackup = some b →
      b.cardsReviewedToday + (s.queue.length - b.index) ≤ Allowance s

theorem inv_buildQueue (s : SessionState) (t : Int) (cs : List Nat) (h : SessInv s) :
    SessInv (buildQueue s t cs) := by
  have hlen : (buildQueue s t cs).queue.length ≤
      (jsOrNat (checkDayReset s.deck t).dailyLimit 5
        + jsOrNat (checkDayReset s.deck t).sessionExtension 0)
      - jsOrNat (checkDayReset s.deck t).cardsReviewedToday 0 := by
    rw [buildQueue_queue_eq, List.length_take]
    exact Nat.min_le_left _ _
  constructor
  · show jsOrNat (checkDayReset s.deck t).cardsReviewedToday 0
        + ((buildQueue s t cs).queue.length - 0) ≤
        jsOrNat (checkDayReset s.deck t).dailyLimit 5
        + jsOrNat (checkDayReset s.deck t).sessionExtension 0
    have h1 := h.1
    unfold Allowance at h1
    by_cases hd : s.deck.lastSessionDate = JField.val t
    · have hres : checkDayReset s.deck t = s.deck := by simp [checkDayReset, hd]
      rw [hres] at hlen ⊢
      omega
    · have hres : checkDayReset s.deck t =
          { s.deck with lastSessionDate := JField.val t,
                        cardsReviewedToday := JField.val 0,
                        sessionExtension := JField.val 0 } := by
        simp [checkDayReset, hd]
      rw [hres] at hlen ⊢
      simp only [jsOrNat] at hlen ⊢
      omega
  · intro b hb
    simp [buildQueue] at hb

theorem inv_rateCard (s : SessionState) (r : Rating) (t : Int) (h : SessInv s) :
    SessInv (rateCard s r t) := by
  rcases hq : s.queue.get? s.currentIndex with _ | qAddr
  · simpa only [rateCard, hq] using h
  rcases hfind : s.deck.cards.find? (cardMatches s.heap qAddr) with _ | dAddr
  · simp only [rateCard, hq, hfind]
    obtain ⟨h1, h2⟩ := h
    unfold Allowance at h1 h2
    unfold SessInv Allowance
    refine ⟨?_, ?_⟩
    · simp only
      omega
    · intro b hb
      simp only at hb
      have := h2 b hb
      simp only
      omega
  · have hlt : s.currentIndex < s.queue.length := by
      obtain ⟨hl, -⟩ := List.get?_eq_some.mp hq
      exact hl
    simp only [rateCard, hq, hfind]
    obtain ⟨h1, h2⟩ := h
    unfold Allowance at h1 h2
    unfold SessInv Allowance
    refine ⟨?_, ?_⟩
    · simp only [jsOrNat_val_zero]
      omega
    · intro b hb
      simp only [Option.some.injEq] at hb
      subst hb
      simp only
      omega

theorem inv_rewind (s : SessionState) (h : SessInv s) : SessInv (rewind s).2 := by
  rcases hb : s.rewindBackup with _ | b
  · simpa only [rewind, hb] using h
  · simp only [rewind, hb]
    obtain ⟨h1, h2⟩ := h
    have hb2 := h2 b hb
    unfold Allowance at h1 hb2
    unfold SessInv Allowance
    refine ⟨?_, ?_⟩
    · simp only [jsOrNat_val_zero, List.length_set]
      omega
    · intro b' hb'
      exact Option.noConfusion hb'

theorem inv_extendSession (s : SessionState) (a : Nat) (t : Int) (cs : List Nat)
    (h : SessInv s) : SessInv (extendSession s a t cs) := by
  apply inv_buildQueue
  obtain ⟨h1, h2⟩ := h
  unfold Allowance at h1 h2
  unfold SessInv Allowance
  have hmax : 1 ≤ max 1 a := le_max_left 1 a
  refine ⟨?_, ?_⟩
  · simp only [jsOrNat_val_zero]
    set m := max 1 a
    omega
  · intro b hb
    simp only at hb
    have := h2 b hb
    simp only [jsOrNat_val_zero]
    set m := max 1 a
    omega

theorem inv_applyOp (s : SessionState) (o : Op) (h : SessInv s) : SessInv (applyOp s o) := by
  cases o with
  | build t cs => exact inv_buildQueue s t cs h
  | rate r t => exact inv_rateCard s r t h
  | undo => exact inv_rewind s h
  | extend a t cs => exact inv_extendSession s a t cs h

theorem runOps_inv (s : SessionState) (ops : List Op) (h : SessInv s) :
    SessInv (runOps s ops) := by
  induction ops generalizing s with
  | nil => exact h
  | cons o ops ih => exact ih (applyOp s o) (inv_applyOp s o h)

theorem applyOp_dailyLimit (s : SessionState) (o : Op) :
    (applyOp s o).deck.dailyLimit = s.deck.dailyLimit := by
  cases o with
  | build t cs =>
    show (buildQueue s t cs).deck.dailyLimit = _
    rw [show (buildQueue s t cs).deck = checkDayReset s.deck t from rfl,
        checkDayReset_dailyLimit]
  | rate r t =>
    show (rateCard s r t).deck.dailyLimit = _
    rcases hq : s.queue.get? s.currentIndex with _ | qAddr
    · simp only [rateCard, hq]
    rcases hfind : s.deck.cards.find? (cardMatches s.heap qAddr) with _ | dAddr
    · simp only [rateCard, hq, hfind]
    · simp only [rateCard, hq, hfind]
  | undo =>
    show (rewind s).2.deck.dailyLimit = _
    rcases hb : s.rewindBackup with _ | b <;> simp only [rewind, hb]
  | extend a t cs =>
    show (extendSession s a t cs).deck.dailyLimit = _
    rw [show (extendSession s a t cs).deck =
        checkDayReset { s.deck with
          sessionExtension := JField.val (jsOrNat s.deck.sessionExtension 0 + max 1 a) } t
        from rfl, checkDayReset_dailyLimit]

theorem runOps_dailyLimit (s : SessionState) (ops : List Op) :
    (runOps s ops).deck.dailyLimit = s.deck.dailyLimit := by
  induction ops generalizing s with
  | nil => rfl
  | cons o ops ih =>
    show (runOps (applyOp s o) ops).deck.dailyLimit = _
    rw [ih (applyOp s o), applyOp_dailyLimit]

/-- C5: for a deck with positive `dailyLimit`, starting from a valid
initial state (fresh session, counter within today's allowance),
`cardsReviewedToday ≤ dailyLimit + sessionExtension` holds in every state
reachable by any sequence of `buildQueue`, `rateCard`, `rewind` and
`extendSession` operations. -/
theorem cardsReviewedToday_le_allowance (s : SessionState) (ops : List Op) (L : Nat)
    (hq0 : s.queue = []) (hi0 : s.currentIndex = 0) (hb0 : s.rewindBackup = none)
    (hc0 : jsOrNat s.deck.cardsReviewedToday 0 ≤ L + jsOrNat s.deck.sessionExtension 0)
    (hL : s.deck.dailyLimit = JField.val L) (hL0 : 0 < L) :
    jsOrNat (runOps s ops).deck.cardsReviewedToday 0
      ≤ L + jsOrNat (runOps s ops).deck.sessionExtension 0 := by
  have hlim : jsOrNat s.deck.dailyLimit 5 = L := by
    rw [hL]; simp only [jsOrNat]; split <;> omega
  have hinv : SessInv s := by
    refine ⟨?_, ?_⟩
    · unfold Allowance
      rw [hq0, hi0, hlim]
      simp only [List.length_nil]
      omega
    · intro b hb
      rw [hb0] at hb
      exact Option.noConfusion hb
  have hfin := (runOps_inv s ops hinv).1
  unfold Allowance at hfin
  have hfl : jsOrNat (runOps s ops).deck.dailyLimit 5 = L := by
    rw [runOps_dailyLimit, hL]; simp only [jsOrNat]; split <;> omega
  omega

/-- Witness for `cardsReviewedToday_le_allowance`: a concrete operation
sequence (build, rate, undo, extend) over `sampleState`. -/
theorem cardsReviewedToday_le_allowance_witness :
    jsOrNat (runOps sampleState
        [Op.build 10 [0], Op.rate Rating.remembered 10, Op.undo,
         Op.extend 2 10 [1]]).deck.cardsReviewedToday 0
      ≤ 2 + jsOrNat (runOps sampleState
        [Op.build 10 [0], Op.rate Rating.remembered 10, Op.undo,
         Op.extend 2 10 [1]]).deck.sessionExtension 0 :=
  cardsReviewedToday_le_allowance sampleState
    [Op.build 10 [0], Op.rate Rating.remembered 10, Op.undo, Op.extend 2 10 [1]]
    2 rfl rfl rfl (by decide) rfl (by decide)

/-! ## The Fisher-Yates shuffle is an unbiased permutation generator -/

theorem fyLoop_nil (l : List α) (i : Nat) : fyLoop l i [] = l := by
  cases i <;> rfl

theorem set_of_get? {l : List α} {i : Nat} {a : α} (h : l.get? i = some a) :
    l.set i a = l := by
  apply List.ext_get?
  intro m
  rw [List.get?_set]
  split
  · rename_i hmi
    subst hmi
    rw [h]
    rfl
  · rfl

theorem listSwap_self (l : List α) (i : Nat) : listSwap l i i = l := by
  unfold listSwap
  cases h : l.get? i with
  | none => rfl
  | some a =>
    show (l.set i a).set i a = l
    rw [List.set_set, set_of_get? h]

theorem set_append_left (xs ys : List α) (n : Nat) (v : α) (h : n < xs.length) :
    (xs ++ ys).set n v = xs.set n v ++ ys := by
  induction xs generalizing n with
  | nil => simp at h
  | cons a xs ih =>
    cases n with
    | zero => rfl
    | succ n =>
      show a :: (xs ++ ys).set n v = a :: (xs.set n v ++ ys)
      rw [ih n (by simpa using h)]

theorem set_concat_length (xs : List α) (x v : α) :
    (xs ++ [x]).set xs.length v = xs ++ [v] := by
  induction xs with
  | nil => rfl
  | cons a xs ih =>
    show a :: (xs ++ [x]).set xs.length v = a :: (xs ++ [v])
    rw [ih]

theorem listSwap_append_left (xs ys : List α) (a b : Nat)
    (ha : a < xs.length) (hb : b < xs.length) :
    listSwap (xs ++ ys) a b = listSwap xs a b ++ ys := by
  obtain ⟨va, hva⟩ : ∃ v, xs.get? a = some v := ⟨_, List.get?_eq_get ha⟩
  obtain ⟨vb, hvb⟩ : ∃ v, xs.get? b = some v := ⟨_, List.get?_eq_get hb⟩
  unfold listSwap
  rw [List.get?_append ha, List.get?_append hb, hva, hvb]
  show ((xs ++ ys).set a vb).set b va = (xs.set a vb).set b va ++ ys
  rw [set_append_left xs ys a vb ha, set_append_left _ ys b va (by simpa using hb)]

theorem listSwap_concat_last (xs : List α) (x : α) (j : Nat) (hj : j < xs.length) :
    listSwap (xs ++ [x]) xs.length j = xs.set j x ++ [xs.get ⟨j, hj⟩] := by
  unfold listSwap
  rw [List.get?_concat_length, List.get?_append hj, List.get?_eq_get hj]
  show ((xs ++ [x]).set xs.length (xs.get ⟨j, hj⟩)).set j x
      = xs.set j x ++ [xs.get ⟨j, hj⟩]
  rw [set_concat_length, set_append_left xs [xs.get ⟨j, hj⟩] j x hj]

theorem fyLoop_concat (i : Nat) (cs : List Nat) (xs : List α) (x : α)
    (h : i < xs.length) :
    fyLoop (xs ++ [x]) i cs = fyLoop xs i cs ++ [x] := by
  induction i generalizing xs cs with
  | zero => rfl
  | succ i ih =>
    cases cs with
    | nil => rfl
    | cons c cs =>
      have hj : c % (i + 2) < xs.length :=
        lt_of_le_of_lt (Nat.le_of_lt_succ (Nat.mod_lt c (Nat.succ_pos (i + 1)))) h
      rw [fyLoop, fyLoop, listSwap_append_left xs [x] (i + 1) (c % (i + 2)) h hj,
          ih cs (listSwap xs (i + 1) (c % (i + 2))) (by rw [length_listSwap]; omega)]

theorem jsShuffle_cons_last (xs : List α) (x : α) (c : Nat) (cs : List Nat)
    (hn : 1 ≤ xs.length) (hc : c % (xs.length + 1) = xs.length) :
    jsShuffle (xs ++ [x]) (c :: cs) = jsShuffle xs cs ++ [x] := by
  unfold jsShuffle
  have hlen : (xs ++ [x]).length = xs.length + 1 := by simp
  rw [hlen]
  obtain ⟨m, hm⟩ : ∃ m, xs.length = m + 1 := ⟨xs.length - 1, by omega⟩
  rw [hm]
  show fyLoop (xs ++ [x]) (m + 2 - 1) (c :: cs) = _
  rw [show m + 2 - 1 = m + 1 + 1 - 1 from rfl]
  simp only [Nat.add_sub_cancel]
  rw [fyLoop]
  rw [show c % (m + 1 + 1) = m + 1 from hm ▸ hc]
  rw [show listSwap (xs ++ [x]) (m + 1) (m + 1) = xs ++ [x] from by
    have := listSwap_self (xs ++ [x]) (m + 1)
    exact this]
  rw [fyLoop_concat m cs xs x (by omega)]

theorem listSwap_concat_last' (xs : List α) (x : α) (k j : Nat)
    (hk : k = xs.length) (hj : j < xs.length) :
    listSwap (xs ++ [x]) k j = xs.set j x ++ [xs.get ⟨j, hj⟩] := by
  subst hk
  exact listSwap_concat_last xs x j hj

theorem jsShuffle_cons_mid (xs : List α) (x : α) (c j m : Nat) (cs : List Nat)
    (hm : xs.length = m + 1) (hcj : c % (m + 2) = j) (hj : j < xs.length) :
    jsShuffle (xs ++ [x]) (c :: cs) =
      jsShuffle (xs.set j x) cs ++ [xs.get ⟨j, hj⟩] := by
  subst hcj
  unfold jsShuffle
  have hstep : (xs ++ [x]).length - 1 = m + 1 := by simp [hm]
  have hstep2 : (xs.set (c % (m + 2)) x).length - 1 = m := by
    rw [List.length_set, hm, Nat.add_sub_cancel]
  rw [hstep, hstep2]
  rw [fyLoop]
  rw [listSwap_concat_last' xs x (m + 1) (c % (m + 2)) hm.symm hj]
  rw [fyLoop_concat m cs _ _ (by rw [List.length_set, hm]; omega)]

theorem perm_concat_cancel {t₀ s₀ : List α} {a : α}
    (h : (t₀ ++ [a]).Perm (s₀ ++ [a])) : t₀.Perm s₀ := by
  have h1 : (a :: t₀).Perm (a :: s₀) :=
    ((List.perm_append_singleton a t₀).symm.trans h).trans
      (List.perm_append_singleton a s₀)
  exact (List.perm_cons a).mp h1

theorem set_concat_perm (xs : List α) (x : α) (j : Nat) (hj : j < xs.length) :
    (xs.set j x ++ [xs.get ⟨j, hj⟩]).Perm (xs ++ [x]) := by
  have hset : xs.set j x = xs.take j ++ x :: xs.drop (j + 1) := by
    rw [List.set_eq_take_append_cons_drop, if_pos hj]
  have hdecomp : xs = xs.take j ++ xs.get ⟨j, hj⟩ :: xs.drop (j + 1) := by
    conv_lhs => rw [← List.take_append_drop j xs]
    rw [List.drop_eq_get_cons hj]
  rw [hset]
  conv_rhs => rw [hdecomp]
  set A := xs.take j
  set B := xs.drop (j + 1)
  set y := xs.get ⟨j, hj⟩
  have e1 : (A ++ x :: B) ++ [y] = A ++ (x :: (B ++ [y])) := by simp
  have e2 : (A ++ y :: B) ++ [x] = A ++ (y :: (B ++ [x])) := by simp
  rw [e1, e2]
  apply List.Perm.append_left
  have p1 : (x :: (B ++ [y])).Perm (x :: y :: B) :=
    List.Perm.cons x (List.perm_append_singleton y B)
  have p2 : (x :: y :: B).Perm (y :: x :: B) := List.Perm.swap y x B
  have p3 : (y :: x :: B).Perm (y :: (B ++ [x])) :=
    List.Perm.cons y (List.perm_append_singleton x B).symm
  exact (p1.trans p2).trans p3

theorem jsShuffle_short (l : List α) (cs : List Nat) (h : l.length ≤ 1) :
    jsShuffle l cs = l := by
  unfold jsShuffle
  have h0 : l.length - 1 = 0 := by omega
  rw [h0]
  rfl

theorem jsShuffle_perm (cs : List Nat) (l : List α) : (jsShuffle l cs).Perm l := by
  induction cs generalizing l with
  | nil => rw [jsShuffle, fyLoop_nil]
  | cons c cs ih =>
    by_cases h0 : l.length ≤ 1
    · rw [jsShuffle_short l (c :: cs) h0]
    · push_neg at h0
      have hne : l ≠ [] := by
        intro h
        rw [h] at h0
        simp at h0
      obtain ⟨xs, x, rfl⟩ : ∃ xs x, l = xs ++ [x] :=
        ⟨l.dropLast, l.getLast hne, (List.dropLast_append_getLast hne).symm⟩
      have hxs : 1 ≤ xs.length := by
        simp only [List.length_append, List.length_singleton] at h0
        omega
      obtain ⟨m, hm⟩ : ∃ m, xs.length = m + 1 := ⟨xs.length - 1, by omega⟩
      by_cases hj : c % (xs.length + 1) = xs.length
      · rw [jsShuffle_cons_last xs x c cs hxs hj]
        exact List.Perm.append_right [x] (ih xs)
      · have hmod : c % (m + 2) = c % (xs.length + 1) := by rw [hm]
        have hlt : c % (xs.length + 1) < xs.length := by
          have hb : c % (xs.length + 1) < xs.length + 1 :=
            Nat.mod_lt c (by omega)
          omega
        rw [jsShuffle_cons_mid xs x c (c % (xs.length + 1)) m cs hm hmod hlt]
        exact (List.Perm.append_right _ (ih _)).trans
          (set_concat_perm xs x (c % (xs.length + 1)) hlt)

/-- The valid random-draw sequences for a list of length `n`: the loop runs
`n - 1` steps, step `i` drawing `j ≤ i` (`Math.floor(Math.random()*(i+1))`
with `Math.random() ∈ [0,1)`). -/
def validChoices : Nat → List Nat → Bool
  | 0, cs => cs.isEmpty
  | 1, cs => cs.isEmpty
  | _ + 2, [] => false
  | n + 2, c :: cs => decide (c ≤ n + 1) && validChoices (n + 1) cs

theorem validChoices_succ_succ (m : Nat) (cs : List Nat) :
    validChoices (m + 2) cs = true ↔
      ∃ c cs', cs = c :: cs' ∧ c ≤ m + 1 ∧ validChoices (m + 1) cs' = true := by
  cases cs with
  | nil =>
    simp [validChoices]
  | cons c cs' =>
    simp only [validChoices, Bool.and_eq_true, decide_eq_true_eq]
    constructor
    · rintro ⟨h1, h2⟩
      exact ⟨c, cs', rfl, h1, h2⟩
    · rintro ⟨c'', cs'', heq, h1, h2⟩
      cases heq
      exact ⟨h1, h2⟩

theorem concat_inj' {A B : List α} {u v : α} (h : A ++ [u] = B ++ [v]) :
    A = B ∧ u = v := by
  have hlen : A.length = B.length := by
    have := congrArg List.length h
    simpa using this
  obtain ⟨h1, h2⟩ := List.append_inj h hlen
  refine ⟨h1, ?_⟩
  simpa using h2

theorem jsShuffle_uniform_aux {α : Type} :
    ∀ (n : Nat) (l : List α), l.length = n → l.Nodup → ∀ t : List α,
    (t.Perm l ↔ ∃! cs, validChoices n cs = true ∧ jsShuffle l cs = t) := by
  intro n
  induction n with
  | zero =>
    intro l hl hnd t
    have hl0 : l = [] := List.length_eq_zero.mp hl
    subst hl0
    constructor
    · intro hperm
      have ht : t = [] := List.perm_nil.mp hperm
      subst ht
      refine ⟨[], ⟨rfl, rfl⟩, ?_⟩
      rintro cs' ⟨hv, -⟩
      cases cs' with
      | nil => rfl
      | cons c cs'' => simp [validChoices] at hv
    · rintro ⟨cs, ⟨-, hs⟩, -⟩
      rw [← hs]
      exact jsShuffle_perm cs []
  | succ n ih =>
    intro l hl hnd t
    rcases Nat.eq_zero_or_pos n with hn0 | hnpos
    · subst hn0
      obtain ⟨a, rfl⟩ := List.length_eq_one.mp hl
      constructor
      · intro hperm
        have ht : t = [a] := List.perm_singleton.mp hperm
        subst ht
        refine ⟨[], ⟨rfl, rfl⟩, ?_⟩
        rintro cs' ⟨hv, -⟩
        cases cs' with
        | nil => rfl
        | cons c cs'' => simp [validChoices] at hv
      · rintro ⟨cs, ⟨-, hs⟩, -⟩
        rw [← hs]
        exact jsShuffle_perm cs [a]
    · obtain ⟨m, rfl⟩ : ∃ m, n = m + 1 := ⟨n - 1, by omega⟩
      have hne : l ≠ [] := by
        intro h
        rw [h] at hl
        simp at hl
      obtain ⟨xs, x, rfl⟩ : ∃ xs x, l = xs ++ [x] :=
        ⟨l.dropLast, l.getLast hne, (List.dropLast_append_getLast hne).symm⟩
      have hxs : xs.length = m + 1 := by
        simp only [List.length_append, List.length_singleton] at hl
        omega
      have hndxs : xs.Nodup := List.Nodup.of_append_left hnd
      have hxnotin : x ∉ xs := by
        rw [List.nodup_append] at hnd
        intro hmem
        exact hnd.2.2 hmem (List.mem_singleton_self x)
      constructor
      · intro hperm
        have htne : t ≠ [] := by
          intro h
          subst h
          have := hperm.length_eq
          simp at this
        obtain ⟨t₀, y, rfl⟩ : ∃ t₀ y, t = t₀ ++ [y] :=
          ⟨t.dropLast, t.getLast htne, (List.dropLast_append_getLast htne).symm⟩
        have hy : y ∈ xs ++ [x] := hperm.subset (by simp)
        rcases List.mem_append.mp hy with hyxs | hyx
        · obtain ⟨⟨j, hjlt⟩, hjy⟩ := List.mem_iff_get.mp hyxs
          have hpermP : (t₀ ++ [y]).Perm (xs.set j x ++ [y]) := by
            refine hperm.trans ?_
            have hsc := set_concat_perm xs x j hjlt
            rw [hjy] at hsc
            exact hsc.symm
          have ht₀ : t₀.Perm (xs.set j x) := perm_concat_cancel hpermP
          have hndP : (xs.set j x).Nodup := by
            have hp : ((xs.set j x) ++ [xs.get ⟨j, hjlt⟩]).Nodup :=
              (set_concat_perm xs x j hjlt).symm.nodup hnd
            exact List.Nodup.of_append_left hp
          have hlenP : (xs.set j x).length = m + 1 := by
            rw [List.length_set]
            exact hxs
          obtain ⟨cs', ⟨hv', hs'⟩, huniq'⟩ := (ih (xs.set j x) hlenP hndP t₀).mp ht₀
          refine ⟨j :: cs', ⟨?_, ?_⟩, ?_⟩
          · exact (validChoices_succ_succ m _).mpr ⟨j, cs', rfl, by omega, hv'⟩
          · rw [jsShuffle_cons_mid xs x j j m cs' hxs
                  (Nat.mod_eq_of_lt (by omega)) hjlt, hs', hjy]
          · rintro cs₂ ⟨hv₂, hs₂⟩
            obtain ⟨c₂, cs₂', rfl, hc₂le, hv₂'⟩ := (validChoices_succ_succ m _).mp hv₂
            by_cases hc₂ : c₂ = m + 1
            · subst hc₂
              rw [jsShuffle_cons_last xs x (m + 1) cs₂' (by omega)
                    (by rw [hxs]; exact Nat.mod_eq_of_lt (by omega))] at hs₂
              obtain ⟨-, hxy⟩ := concat_inj' hs₂
              rw [← hxy] at hyxs
              exact absurd hyxs hxnotin
            · have hc₂lt : c₂ < xs.length := by omega
              rw [jsShuffle_cons_mid xs x c₂ c₂ m cs₂' hxs
                    (Nat.mod_eq_of_lt (by omega)) hc₂lt] at hs₂
              obtain ⟨hpre, hlast⟩ := concat_inj' hs₂
              have hc₂j : c₂ = j := by
                have hgg : xs.get? c₂ = xs.get? j := by
                  rw [List.get?_eq_get hc₂lt, List.get?_eq_get hjlt, hlast, hjy]
                exact List.get?_inj hc₂lt hndxs hgg
              subst hc₂j
              rw [huniq' cs₂' ⟨hv₂', hpre⟩]
        · have hyx' : y = x := by simpa using hyx
          subst hyx'
          have ht₀ : t₀.Perm xs := perm_concat_cancel hperm
          obtain ⟨cs', ⟨hv', hs'⟩, huniq'⟩ := (ih xs hxs hndxs t₀).mp ht₀
          refine ⟨(m + 1) :: cs', ⟨?_, ?_⟩, ?_⟩
          · exact (validChoices_succ_succ m _).mpr ⟨m + 1, cs', rfl, le_refl _, hv'⟩
          · rw [jsShuffle_cons_last xs y (m + 1) cs' (by omega)
                  (by rw [hxs]; exact Nat.mod_eq_of_lt (by omega)), hs']
          · rintro cs₂ ⟨hv₂, hs₂⟩
            obtain ⟨c₂, cs₂', rfl, hc₂le, hv₂'⟩ := (validChoices_succ_succ m _).mp hv₂
            by_cases hc₂ : c₂ = m + 1
            · subst hc₂
              rw [jsShuffle_cons_last xs y (m + 1) cs₂' (by omega)
                    (by rw [hxs]; exact Nat.mod_eq_of_lt (by omega))] at hs₂
              obtain ⟨hpre, -⟩ := concat_inj' hs₂
              rw [huniq' cs₂' ⟨hv₂', hpre⟩]
            · have hc₂lt : c₂ < xs.length := by omega
              rw [jsShuffle_cons_mid xs y c₂ c₂ m cs₂' hxs
                    (Nat.mod_eq_of_lt (by omega)) hc₂lt] at hs₂
              obtain ⟨-, hlast⟩ := concat_inj' hs₂
              rw [← hlast] at hxnotin
              exact absurd (List.get_mem xs c₂ hc₂lt) hxnotin
      · rintro ⟨cs, ⟨-, hs⟩, -⟩
        rw [← hs]
        exact jsShuffle_perm cs _

/-- C9: the shuffle `buildQueue` performs is an unbiased Fisher-Yates
shuffle.  For every candidate list (distinct entries) the map from valid
random-draw sequences to outputs is a bijection onto the permutations of
the list: a list `t` is a permutation of `l` exactly when precisely one
valid draw sequence shuffles `l` to `t`.  Under a uniform random source
every valid draw sequence has the same probability (`1/n!`), so every one
of the `n!` permutations is produced with equal probability. -/
theorem jsShuffle_uniform {α : Type} (l : List α) (hnd : l.Nodup) (t : List α) :
    t.Perm l ↔ ∃! cs, validChoices l.length cs = true ∧ jsShuffle l cs = t :=
  jsShuffle_uniform_aux l.length l rfl hnd t

/-- Witness for `jsShuffle_uniform` on a concrete three-element list. -/
theorem jsShuffle_uniform_witness :
    List.Perm [2, 0, 1] [0, 1, 2] ↔
      ∃! cs, validChoices ([0, 1, 2] : List Nat).length cs = true
        ∧ jsShuffle [0, 1, 2] cs = [2, 0, 1] :=
  jsShuffle_uniform [0, 1, 2] (by decide) [2, 0, 1]
